import Mathlib

/-!
Verification of the rendering core of a Whitted-style ray tracer
(`vector.py`, `objects.py`, `raytracer.py`).

Modelling conventions of the shallow embedding:

* Python floats are modelled as real numbers (`ℝ`); the program never
  produces IEEE infinities or NaNs by arithmetic, because CPython raises
  `ZeroDivisionError` on float division by zero.  The literal
  `float('inf')` is only used as a sentinel that is compared with `<`,
  so values that may be `inf` live in `WithTop ℝ` (`⊤` = `inf`).
* Code that can raise (`ZeroDivisionError` from `(-b ± √disc) / (2a)`
  when `a = 0`, attribute arithmetic on a `None` light position) is
  modelled in `Option`: `none` is an escaped exception.
* `intersect_ray_sphere` returns `some none` for the Python sentinel
  pair `(inf, inf)` (the `disc < 0` branch) and `some (some (t1, t2))`
  for two real roots.  The sentinel `(inf, inf)` never passes the strict
  interval test `min_t < t < max_t` of `closest_intersection` (because
  `inf < max_t` is false for `max_t` finite or infinite), so skipping it
  in the scan loop is exactly the source behaviour.
* `closest_intersection` returns `some none` for the Python pair
  `(None, inf)` and `some (some (s, t))` for `(s, t)`; in the source the
  returned `closest_t` is `inf` exactly when `closest_sphere is None`,
  since both variables are only ever updated together with a finite `t`.
* `int(x)` (truncation towards zero) is `truncInt`; Python integers are
  unbounded, so colour channels are `ℤ`.
* The recursion depth is modelled as `ℕ`: the source guard
  `recursion_depth <= 0` collapses all non-positive Python integers onto
  `0`, and every recursive call passes `depth - 1`.
-/

namespace Raytracer

/-- Vector class of `vector.py`: a 3D vector of floats. -/
structure Vector where
  x : ℝ
  y : ℝ
  z : ℝ

/-- Python `__add__`: componentwise vector addition. -/
def Vector.add (v w : Vector) : Vector :=
  ⟨v.x + w.x, v.y + w.y, v.z + w.z⟩

/-- Python `__sub__`: componentwise vector subtraction. -/
def Vector.sub (v w : Vector) : Vector :=
  ⟨v.x - w.x, v.y - w.y, v.z - w.z⟩

/-- Python `__mul__` / `__rmul__`: multiplication of a vector by a scalar. -/
def Vector.smul (v : Vector) (k : ℝ) : Vector :=
  ⟨v.x * k, v.y * k, v.z * k⟩

/-- Python `__truediv__`: division of a vector by a scalar.  The only call site
(`normalize`) guards the divisor against `0`, so the Lean convention
`r / 0 = 0` is never exercised by the program. -/
noncomputable def Vector.div (v : Vector) (k : ℝ) : Vector :=
  ⟨v.x / k, v.y / k, v.z / k⟩

/-- Method `dot`: scalar product. -/
def Vector.dot (v w : Vector) : ℝ :=
  v.x * w.x + v.y * w.y + v.z * w.z

/-- Method `length`: `sqrt(v · v)`. -/
noncomputable def Vector.length (v : Vector) : ℝ :=
  Real.sqrt (v.dot v)

/-- Method `normalize`: returns `(0,0,0)` when the length is `0` (explicit
guard in the source), otherwise `self / l`. -/
noncomputable def Vector.normalize (v : Vector) : Vector :=
  if v.length = 0 then ⟨0, 0, 0⟩ else v.div v.length

/-- Colour triple returned by `trace_ray`; Python `int`s. -/
abbrev Color := ℤ × ℤ × ℤ

/-- Sphere record of `objects.py`.  The colour channels are the Python
`int` components of the `color` tuple. -/
structure Sphere where
  center : Vector
  radius : ℝ
  color : ℤ × ℤ × ℤ
  specular : ℤ
  reflective : ℝ

/-- The three light kinds of `objects.py` (`l_type` strings).  Any
string other than `'ambient'`/`'point'` takes the `'directional'`
branch in `compute_lighting`, which the loader never produces. -/
inductive LightType
  | ambient
  | point
  | directional
deriving DecidableEq

/-- Light record of `objects.py`; `position` is `None` for ambient
lights by convention of the constructor default. -/
structure Light where
  l_type : LightType
  intensity : ℝ
  position : Option Vector

/-- Constant `EPS = 0.001`, the self-intersection guard of `raytracer.py`. -/
noncomputable def EPS : ℝ := 0.001

/-- Python `int(x)` on a float: truncation towards zero. -/
noncomputable def truncInt (x : ℝ) : ℤ :=
  if 0 ≤ x then ⌊x⌋ else ⌈x⌉

/-- Conversion `min(255, int(x))`, the per-channel conversion used by `trace_ray`.
There is no lower clamp in the source. -/
noncomputable def clampChan (x : ℝ) : ℤ :=
  min 255 (truncInt x)

/-- Function `intersect_ray_sphere(origin, direction, sphere)` from
`raytracer.py`.

* `some none` is the sentinel return `(inf, inf)` of the `disc < 0`
  branch;
* `none` is the `ZeroDivisionError` CPython raises from
  `(-b ± sqrt_disc) / (2 * a)` when `2 * a == 0`;
* `some (some (t1, t2))` are the two (unordered, possibly negative)
  real roots. -/
noncomputable def intersect_ray_sphere (origin direction : Vector) (sphere : Sphere) :
    Option (Option (ℝ × ℝ)) :=
  let co := origin.sub sphere.center
  let a := direction.dot direction
  let b := 2 * co.dot direction
  let c := co.dot co - sphere.radius * sphere.radius
  let disc := b * b - 4 * a * c
  if disc < 0 then
    some none
  else if 2 * a = 0 then
    none
  else
    let sqrt_disc := Real.sqrt disc
    some (some ((-b + sqrt_disc) / (2 * a), (-b - sqrt_disc) / (2 * a)))

/-- The running `closest_t` of the scan loop of `closest_intersection`:
`inf` initially (`closest_sphere = None`), otherwise the stored root. -/
def bestT : Option (Sphere × ℝ) → WithTop ℝ
  | none => ⊤
  | some p => (p.2 : WithTop ℝ)

/-- One conditional update of the `(closest_sphere, closest_t)` pair:
`if min_t < t < max_t and t < closest_t: closest_t, closest_sphere = t, s`. -/
noncomputable def updateBest (min_t : ℝ) (max_t : WithTop ℝ) (s : Sphere) (t : ℝ)
    (best : Option (Sphere × ℝ)) : Option (Sphere × ℝ) :=
  if min_t < t ∧ (t : WithTop ℝ) < max_t ∧ (t : WithTop ℝ) < bestT best
    then some (s, t) else best

/-- The `for s in spheres` loop of `closest_intersection`, with the
`(closest_sphere, closest_t)` pair as accumulator (`none` stands for
`(None, inf)`).  Each root is kept when
`min_t < t < max_t and t < closest_t` (`updateBest`, first `t1` and
then `t2`).  A `some none` result of `intersect_ray_sphere` is the pair
`(inf, inf)`, which never passes the strict upper test `t < max_t`, so
the source keeps the accumulator unchanged for it. -/
noncomputable def closestLoop (origin direction : Vector) (min_t : ℝ) (max_t : WithTop ℝ) :
    List Sphere → Option (Sphere × ℝ) → Option (Option (Sphere × ℝ))
  | [], best => some best
  | s :: rest, best =>
    match intersect_ray_sphere origin direction s with
    | none => none
    | some none => closestLoop origin direction min_t max_t rest best
    | some (some (t1, t2)) =>
      closestLoop origin direction min_t max_t rest
        (updateBest min_t max_t s t2 (updateBest min_t max_t s t1 best))

/-- Function `closest_intersection(origin, direction, min_t, max_t, spheres)`
from `raytracer.py`: linear scan keeping the smallest root strictly
inside `(min_t, max_t)`.  `some none` is the return `(None, inf)`;
`none` is a propagated `ZeroDivisionError`. -/
noncomputable def closest_intersection (origin direction : Vector) (min_t : ℝ)
    (max_t : WithTop ℝ) (spheres : List Sphere) : Option (Option (Sphere × ℝ)) :=
  closestLoop origin direction min_t max_t spheres none

/-- One iteration of the `for light in lights` loop of
`compute_lighting`, taking the running `intensity` to its new value.

* ambient lights add their intensity and `continue`;
* for the other kinds the source computes `l_vec`/`t_max` by
  `if light.l_type == 'point'` (anything else takes the directional
  branch), after which subtracting from a `None` position would raise
  (`none` result);
* a hit of the shadow ray means `continue` (unchanged intensity);
* otherwise the Lambert term is added when `n_dot_l > 0`, and, unless
  `specular == -1`, the Phong term `intensity * r_dot_v ** specular`
  when `r_dot_v > 0` (`**` with an `int` exponent is `zpow`). -/
noncomputable def lightStep (point normal view : Vector) (specular : ℤ)
    (spheres : List Sphere) (light : Light) (intensity : ℝ) : Option ℝ :=
  match light.l_type with
  | LightType.ambient => some (intensity + light.intensity)
  | lt =>
    match light.position with
    | none => none
    | some lp =>
      let l_vec := if lt = LightType.point then lp.sub point else lp
      let t_max : WithTop ℝ := if lt = LightType.point then ((1 : ℝ) : WithTop ℝ) else ⊤
      let shadow_origin := point.add (normal.smul EPS)
      match closest_intersection shadow_origin l_vec EPS t_max spheres with
      | none => none
      | some (some _) => some intensity
      | some none =>
        let l_dir := l_vec.normalize
        let n_dot_l := normal.dot l_dir
        let intensity1 := if 0 < n_dot_l then intensity + light.intensity * n_dot_l
          else intensity
        if specular ≠ -1 then
          let r_vec := (((normal.smul 2).smul (normal.dot l_dir)).sub l_dir).normalize
          let v_dir := view.normalize
          let r_dot_v := r_vec.dot v_dir
          if 0 < r_dot_v then some (intensity1 + light.intensity * r_dot_v ^ specular)
          else some intensity1
        else some intensity1

/-- The full `for light in lights` loop of `compute_lighting`,
accumulating the intensity; `none` is a propagated exception. -/
noncomputable def lightingLoop (point normal view : Vector) (specular : ℤ)
    (spheres : List Sphere) : List Light → ℝ → Option ℝ
  | [], intensity => some intensity
  | light :: rest, intensity =>
    match lightStep point normal view specular spheres light intensity with
    | none => none
    | some intensity2 => lightingLoop point normal view specular spheres rest intensity2

/-- Function `compute_lighting(point, normal, view, specular, spheres, lights)`
from `raytracer.py`: the light loop started from `intensity = 0.0`. -/
noncomputable def compute_lighting (point normal view : Vector) (specular : ℤ)
    (spheres : List Sphere) (lights : List Light) : Option ℝ :=
  lightingLoop point normal view specular spheres lights 0

/-- Function `trace_ray(origin, direction, min_t, max_t, spheres, lights,
recursion_depth)` from `raytracer.py`.

* no hit → background `(0, 0, 0)`;
* hit → `point = O + D*t`, `normal = normalize(point - C)`,
  `view = (-1) * D`, `lighting = max(0, min(1, compute_lighting(...)))`,
  `local_color = sphere.color * lighting` componentwise;
* `recursion_depth <= 0 or reflective <= 0` → `min(255, int(channel))`
  of the local colour (on `ℕ` the first disjunct is `depth = 0`);
* otherwise recurse at `depth - 1` along the reflected ray and blend
  `local * (1 - r) + reflected * r` per channel, clamped the same way.
`none` is a propagated exception (from the intersection or lighting
math). -/
noncomputable def trace_ray (spheres : List Sphere) (lights : List Light) :
    ℕ → Vector → Vector → ℝ → WithTop ℝ → Option Color
  | depth, origin, direction, min_t, max_t =>
    match closest_intersection origin direction min_t max_t spheres with
    | none => none
    | some none => some (0, 0, 0)
    | some (some (sphere, t)) =>
      let point := origin.add (direction.smul t)
      let normal := (point.sub sphere.center).normalize
      let view := direction.smul (-1)
      match compute_lighting point normal view sphere.specular spheres lights with
      | none => none
      | some li =>
        let lighting := max 0 (min 1 li)
        let lc1 := (sphere.color.1 : ℝ) * lighting
        let lc2 := (sphere.color.2.1 : ℝ) * lighting
        let lc3 := (sphere.color.2.2 : ℝ) * lighting
        let r := sphere.reflective
        match depth with
        | 0 => some (clampChan lc1, clampChan lc2, clampChan lc3)
        | d + 1 =>
          if r ≤ 0 then some (clampChan lc1, clampChan lc2, clampChan lc3)
          else
            let reflected_dir :=
              (((normal.smul 2).smul (normal.dot view)).sub view).normalize
            let reflect_origin := point.add (normal.smul EPS)
            match trace_ray spheres lights d reflect_origin reflected_dir EPS ⊤ with
            | none => none
            | some rc =>
              some (clampChan (lc1 * (1 - r) + (rc.1 : ℝ) * r),
                    clampChan (lc2 * (1 - r) + (rc.2.1 : ℝ) * r),
                    clampChan (lc3 * (1 - r) + (rc.2.2 : ℝ) * r))

/-! ### Evaluation helpers -/

/-- Square roots of perfect squares, for evaluating the intersection
math on concrete scenes. -/
theorem sqrt_eval {a b : ℝ} (hb : 0 ≤ b) (h : b ^ 2 = a) : Real.sqrt a = b := by
  subst h; exact Real.sqrt_sq hb

/-- Normalization evaluates to the division by the root of `v · v`. -/
theorem normalize_eval {v : Vector} {l : ℝ} (hl : 0 < l) (h : v.dot v = l ^ 2) :
    v.normalize = v.div l := by
  have hlen : v.length = l := by
    rw [Vector.length, h, Real.sqrt_sq hl.le]
  rw [Vector.normalize, hlen, if_neg hl.ne']

/-- Truncation towards zero of a value that is already an integer. -/
theorem truncInt_intCast (n : ℤ) : truncInt (n : ℝ) = n := by
  rw [truncInt]
  rcases le_or_lt 0 (n : ℝ) with h | h
  · rw [if_pos h, Int.floor_intCast]
  · rw [if_neg (not_le.mpr h), Int.ceil_intCast]

theorem lightingLoop_nil {p n v : Vector} {spec : ℤ} {spheres : List Sphere} {acc : ℝ} :
    lightingLoop p n v spec spheres [] acc = some acc := rfl

theorem lightingLoop_cons_some {p n v : Vector} {spec : ℤ} {spheres : List Sphere}
    {light : Light} {rest : List Light} {acc acc2 : ℝ}
    (h : lightStep p n v spec spheres light acc = some acc2) :
    lightingLoop p n v spec spheres (light :: rest) acc =
      lightingLoop p n v spec spheres rest acc2 := by
  rw [lightingLoop, h]

theorem lightingLoop_cons_none {p n v : Vector} {spec : ℤ} {spheres : List Sphere}
    {light : Light} {rest : List Light} {acc : ℝ}
    (h : lightStep p n v spec spheres light acc = none) :
    lightingLoop p n v spec spheres (light :: rest) acc = none := by
  rw [lightingLoop, h]

theorem lightStep_ambient {p n v : Vector} {spec : ℤ} {spheres : List Sphere}
    {light : Light} {acc : ℝ} (h : light.l_type = LightType.ambient) :
    lightStep p n v spec spheres light acc = some (acc + light.intensity) := by
  rw [lightStep, h]

noncomputable def sphA : Sphere := ⟨⟨0,0,3⟩, 1, (255,0,0), -1, 2⟩

/-- Single ambient light of intensity `1.0`. -/
noncomputable def ambLight : Light := ⟨LightType.ambient, 1, none⟩

theorem lighting_ambient_only {p n v : Vector} {spec : ℤ} {spheres : List Sphere} :
    compute_lighting p n v spec spheres [ambLight] = some 1 := by
  rw [compute_lighting, lightingLoop_cons_some (lightStep_ambient rfl), lightingLoop_nil,
    zero_add]
  rfl

theorem intersect_A1 : intersect_ray_sphere ⟨0,0,0⟩ ⟨0,0,1⟩ sphA = some (some (4, 2)) := by
  unfold intersect_ray_sphere sphA
  simp only [Vector.sub, Vector.dot]
  norm_num
  rw [show Real.sqrt 4 = 2 from sqrt_eval (by norm_num) (by norm_num)]
  norm_num

theorem closestLoop_nil {o d : Vector} {mt : ℝ} {Mt : WithTop ℝ}
    {best : Option (Sphere × ℝ)} : closestLoop o d mt Mt [] best = some best := rfl

theorem closestLoop_cons_err {o d : Vector} {mt : ℝ} {Mt : WithTop ℝ} {s : Sphere}
    {rest : List Sphere} {best : Option (Sphere × ℝ)}
    (hi : intersect_ray_sphere o d s = none) :
    closestLoop o d mt Mt (s :: rest) best = none := by
  rw [closestLoop, hi]

theorem closestLoop_cons_miss {o d : Vector} {mt : ℝ} {Mt : WithTop ℝ} {s : Sphere}
    {rest : List Sphere} {best : Option (Sphere × ℝ)}
    (hi : intersect_ray_sphere o d s = some none) :
    closestLoop o d mt Mt (s :: rest) best = closestLoop o d mt Mt rest best := by
  rw [closestLoop, hi]

theorem closestLoop_cons_roots {o d : Vector} {mt : ℝ} {Mt : WithTop ℝ} {s : Sphere}
    {rest : List Sphere} {best : Option (Sphere × ℝ)} {t1 t2 : ℝ}
    (hi : intersect_ray_sphere o d s = some (some (t1, t2))) :
    closestLoop o d mt Mt (s :: rest) best =
      closestLoop o d mt Mt rest (updateBest mt Mt s t2 (updateBest mt Mt s t1 best)) := by
  rw [closestLoop, hi]

theorem updateBest_pos {mt : ℝ} {Mt : WithTop ℝ} {s : Sphere} {t : ℝ}
    {best : Option (Sphere × ℝ)} (h1 : mt < t) (h2 : (t : WithTop ℝ) < Mt)
    (h3 : (t : WithTop ℝ) < bestT best) :
    updateBest mt Mt s t best = some (s, t) := if_pos ⟨h1, h2, h3⟩

theorem updateBest_neg {mt : ℝ} {Mt : WithTop ℝ} {s : Sphere} {t : ℝ}
    {best : Option (Sphere × ℝ)}
    (h : ¬ (mt < t ∧ (t : WithTop ℝ) < Mt ∧ (t : WithTop ℝ) < bestT best)) :
    updateBest mt Mt s t best = best := if_neg h

/-- Colour the base case of `trace_ray` returns at a hit:
`min(255, int(channel * lighting))` with the lighting clamped to
`[0, 1]`. -/
noncomputable def localColor (s : Sphere) (li : ℝ) : Color :=
  (clampChan ((s.color.1 : ℝ) * max 0 (min 1 li)),
   clampChan ((s.color.2.1 : ℝ) * max 0 (min 1 li)),
   clampChan ((s.color.2.2 : ℝ) * max 0 (min 1 li)))

theorem trace_ray_err {spheres : List Sphere} {lights : List Light} {depth : ℕ}
    {o d : Vector} {mt : ℝ} {Mt : WithTop ℝ}
    (hc : closest_intersection o d mt Mt spheres = none) :
    trace_ray spheres lights depth o d mt Mt = none := by
  rw [trace_ray, hc]

theorem trace_ray_background {spheres : List Sphere} {lights : List Light} {depth : ℕ}
    {o d : Vector} {mt : ℝ} {Mt : WithTop ℝ}
    (hc : closest_intersection o d mt Mt spheres = some none) :
    trace_ray spheres lights depth o d mt Mt = some (0, 0, 0) := by
  rw [trace_ray, hc]

theorem trace_ray_hit_base {spheres : List Sphere} {lights : List Light} {depth : ℕ}
    {o d : Vector} {mt : ℝ} {Mt : WithTop ℝ} {s : Sphere} {t li : ℝ}
    (hc : closest_intersection o d mt Mt spheres = some (some (s, t)))
    (hl : compute_lighting (o.add (d.smul t)) (((o.add (d.smul t)).sub s.center).normalize)
        (d.smul (-1)) s.specular spheres lights = some li)
    (hbase : depth = 0 ∨ s.reflective ≤ 0) :
    trace_ray spheres lights depth o d mt Mt = some (localColor s li) := by
  rw [trace_ray, hc]
  dsimp only
  rw [hl]
  dsimp only
  rcases hbase with h0 | hr
  · subst h0; rfl
  · cases depth with
    | zero => rfl
    | succ d0 => dsimp only; rw [if_pos hr]; rfl

theorem trace_ray_hit_rec {spheres : List Sphere} {lights : List Light} {d0 : ℕ}
    {o d : Vector} {mt : ℝ} {Mt : WithTop ℝ} {s : Sphere} {t li : ℝ}
    {pnt nrm vw rdir rorig : Vector}
    (hc : closest_intersection o d mt Mt spheres = some (some (s, t)))
    (hpnt : pnt = o.add (d.smul t))
    (hnrm : nrm = (pnt.sub s.center).normalize)
    (hvw : vw = d.smul (-1))
    (hl : compute_lighting pnt nrm vw s.specular spheres lights = some li)
    (hr : 0 < s.reflective)
    (hrdir : rdir = (((nrm.smul 2).smul (nrm.dot vw)).sub vw).normalize)
    (hrorig : rorig = pnt.add (nrm.smul EPS)) :
    trace_ray spheres lights (d0 + 1) o d mt Mt =
      (trace_ray spheres lights d0 rorig rdir EPS ⊤).map (fun rc =>
        (clampChan ((s.color.1 : ℝ) * max 0 (min 1 li) * (1 - s.reflective)
            + (rc.1 : ℝ) * s.reflective),
         clampChan ((s.color.2.1 : ℝ) * max 0 (min 1 li) * (1 - s.reflective)
            + (rc.2.1 : ℝ) * s.reflective),
         clampChan ((s.color.2.2 : ℝ) * max 0 (min 1 li) * (1 - s.reflective)
            + (rc.2.2 : ℝ) * s.reflective))) := by
  subst hpnt; subst hnrm; subst hvw; subst hrdir; subst hrorig
  rw [trace_ray, hc]
  dsimp only
  rw [hl]
  dsimp only
  rw [if_neg (not_le.mpr hr)]
  cases trace_ray spheres lights d0 _ _ EPS ⊤ <;> rfl

theorem closest_A1 : closest_intersection ⟨0,0,0⟩ ⟨0,0,1⟩ EPS ⊤ [sphA] = some (some (sphA, 2)) := by
  unfold closest_intersection
  have h1 : updateBest EPS ⊤ sphA 4 none = some (sphA, 4) :=
    updateBest_pos (by norm_num [EPS]) (WithTop.coe_lt_top _) (WithTop.coe_lt_top _)
  have h2 : updateBest EPS ⊤ sphA 2 (some (sphA, 4)) = some (sphA, 2) :=
    updateBest_pos (by norm_num [EPS]) (WithTop.coe_lt_top _)
      (by simp only [bestT]; exact WithTop.coe_lt_coe.mpr (by norm_num))
  rw [closestLoop_cons_roots intersect_A1, h1, h2, closestLoop_nil]

theorem normalize_concrete {v w : Vector} {l : ℝ} (hl : 0 < l) (h : v.dot v = l ^ 2)
    (hw : v.div l = w) : v.normalize = w := by
  rw [normalize_eval hl h, hw]

theorem nrm_negZ : (⟨0, 0, -1⟩ : Vector).normalize = ⟨0, 0, -1⟩ :=
  normalize_concrete one_pos (by norm_num [Vector.dot])
    (by norm_num [Vector.div, Vector.mk.injEq])

theorem nrm_posZ : (⟨0, 0, 1⟩ : Vector).normalize = ⟨0, 0, 1⟩ :=
  normalize_concrete one_pos (by norm_num [Vector.dot])
    (by norm_num [Vector.div, Vector.mk.injEq])

theorem nrm_posY : (⟨0, 1, 0⟩ : Vector).normalize = ⟨0, 1, 0⟩ :=
  normalize_concrete one_pos (by norm_num [Vector.dot])
    (by norm_num [Vector.div, Vector.mk.injEq])

theorem clampChan_eval {x : ℝ} {n : ℤ} (h : x = (n : ℝ)) : clampChan x = min 255 n := by
  rw [h, clampChan, truncInt_intCast]

theorem intersect_A2 :
    intersect_ray_sphere ⟨0, 0, 1.999⟩ ⟨0, 0, -1⟩ sphA = some (some (-0.001, -2.001)) := by
  unfold intersect_ray_sphere sphA
  simp only [Vector.sub, Vector.dot]
  norm_num
  rw [show Real.sqrt 4 = 2 from sqrt_eval (by norm_num) (by norm_num)]
  norm_num

theorem closest_A2 :
    closest_intersection ⟨0, 0, 1.999⟩ ⟨0, 0, -1⟩ EPS ⊤ [sphA] = some none := by
  unfold closest_intersection
  have hu1 : updateBest EPS ⊤ sphA (-0.001) none = none :=
    updateBest_neg (by intro h; have := h.1; norm_num [EPS] at this)
  have hu2 : updateBest EPS ⊤ sphA (-2.001) none = none :=
    updateBest_neg (by intro h; have := h.1; norm_num [EPS] at this)
  rw [closestLoop_cons_roots intersect_A2, hu1, hu2, closestLoop_nil]

/-- Full evaluation of the claim-C1 counterexample scene: a unit sphere
at `(0,0,3)` of colour `(255,0,0)` with `reflective = 2`, lit by a
single ambient light of intensity `1`, traced from the origin along
`+Z` with one bounce of recursion.  The blend
`255 * (1 - 2) + 0 * 2 = -255` is truncated and only clamped from
above, so the red channel comes out negative. -/
theorem c1_eval :
    trace_ray [sphA] [ambLight] 1 ⟨0, 0, 0⟩ ⟨0, 0, 1⟩ EPS ⊤ = some (-255, 0, 0) := by
  have hpnt : (⟨0, 0, 2⟩ : Vector) = Vector.add ⟨0, 0, 0⟩ (Vector.smul ⟨0, 0, 1⟩ 2) := by
    norm_num [Vector.add, Vector.smul, Vector.mk.injEq]
  have hnrm : (⟨0, 0, -1⟩ : Vector) = (Vector.sub ⟨0, 0, 2⟩ sphA.center).normalize := by
    have h1 : Vector.sub ⟨0, 0, 2⟩ sphA.center = ⟨0, 0, -1⟩ := by
      norm_num [Vector.sub, sphA, Vector.mk.injEq]
    rw [h1, nrm_negZ]
  have hvw : (⟨0, 0, -1⟩ : Vector) = Vector.smul ⟨0, 0, 1⟩ (-1) := by
    norm_num [Vector.smul, Vector.mk.injEq]
  have hrdir : (⟨0, 0, -1⟩ : Vector) =
      (Vector.sub ((Vector.smul ⟨0, 0, -1⟩ 2).smul (Vector.dot ⟨0, 0, -1⟩ ⟨0, 0, -1⟩))
        ⟨0, 0, -1⟩).normalize := by
    have h1 : Vector.sub ((Vector.smul ⟨0, 0, -1⟩ 2).smul (Vector.dot ⟨0, 0, -1⟩ ⟨0, 0, -1⟩))
        ⟨0, 0, -1⟩ = ⟨0, 0, -1⟩ := by
      norm_num [Vector.sub, Vector.smul, Vector.dot, Vector.mk.injEq]
    rw [h1, nrm_negZ]
  have hrorig : (⟨0, 0, 1.999⟩ : Vector) =
      Vector.add ⟨0, 0, 2⟩ (Vector.smul ⟨0, 0, -1⟩ EPS) := by
    norm_num [Vector.add, Vector.smul, EPS, Vector.mk.injEq]
  have hrec : trace_ray [sphA] [ambLight] 0 ⟨0, 0, 1.999⟩ ⟨0, 0, -1⟩ EPS ⊤ = some (0, 0, 0) :=
    trace_ray_background closest_A2
  rw [trace_ray_hit_rec closest_A1 hpnt hnrm hvw lighting_ambient_only
      (by norm_num [sphA]) hrdir hrorig, hrec]
  norm_num [sphA, clampChan, truncInt, Option.map]
  rw [show (-255 : ℝ) = ((-255 : ℤ) : ℝ) by norm_num, Int.ceil_intCast]
  norm_num

/-- The red sphere of the end-to-end scenario:
`center=(0,-1,6), radius=1, color=(255,0,0), specular=500,
reflective=0.2`. -/
noncomputable def sphRed : Sphere := ⟨⟨0, -1, 6⟩, 1, (255, 0, 0), 500, 0.2⟩

theorem intersect_R1 :
    intersect_ray_sphere ⟨0, 0, 0⟩ ⟨0, 0, 1⟩ sphRed = some (some (6, 6)) := by
  unfold intersect_ray_sphere sphRed
  simp only [Vector.sub, Vector.dot]
  norm_num

theorem closest_R1 :
    closest_intersection ⟨0, 0, 0⟩ ⟨0, 0, 1⟩ EPS ⊤ [sphRed] = some (some (sphRed, 6)) := by
  unfold closest_intersection
  have hu1 : updateBest EPS ⊤ sphRed 6 none = some (sphRed, 6) :=
    updateBest_pos (by norm_num [EPS]) (WithTop.coe_lt_top _) (WithTop.coe_lt_top _)
  have hu2 : updateBest EPS ⊤ sphRed 6 (some (sphRed, 6)) = some (sphRed, 6) :=
    updateBest_neg (by
      intro h
      exact absurd h.2.2 (by simp only [bestT]; exact lt_irrefl _))
  rw [closestLoop_cons_roots intersect_R1, hu1, hu2, closestLoop_nil]

theorem intersect_R2 :
    intersect_ray_sphere ⟨0, 0.001, 6⟩ ⟨0, 0, 1⟩ sphRed = some none := by
  unfold intersect_ray_sphere sphRed
  simp only [Vector.sub, Vector.dot]
  norm_num

theorem closest_R2 :
    closest_intersection ⟨0, 0.001, 6⟩ ⟨0, 0, 1⟩ EPS ⊤ [sphRed] = some none := by
  unfold closest_intersection
  rw [closestLoop_cons_miss intersect_R2, closestLoop_nil]

/-- Full evaluation of the end-to-end scenario at any positive depth:
the camera ray straight down `+Z` from the origin grazes the red sphere
at `t = 6`, the ambient-only lighting saturates to `1`, and the
`reflective = 0.2` blend with the missed (black) reflection ray gives
`int(255 * 0.8) = 204` in the red channel. -/
theorem c2_eval (n : ℕ) :
    trace_ray [sphRed] [ambLight] (n + 1) ⟨0, 0, 0⟩ ⟨0, 0, 1⟩ EPS ⊤ = some (204, 0, 0) := by
  have hpnt : (⟨0, 0, 6⟩ : Vector) = Vector.add ⟨0, 0, 0⟩ (Vector.smul ⟨0, 0, 1⟩ 6) := by
    norm_num [Vector.add, Vector.smul, Vector.mk.injEq]
  have hnrm : (⟨0, 1, 0⟩ : Vector) = (Vector.sub ⟨0, 0, 6⟩ sphRed.center).normalize := by
    have h1 : Vector.sub ⟨0, 0, 6⟩ sphRed.center = ⟨0, 1, 0⟩ := by
      norm_num [Vector.sub, sphRed, Vector.mk.injEq]
    rw [h1, nrm_posY]
  have hvw : (⟨0, 0, -1⟩ : Vector) = Vector.smul ⟨0, 0, 1⟩ (-1) := by
    norm_num [Vector.smul, Vector.mk.injEq]
  have hrdir : (⟨0, 0, 1⟩ : Vector) =
      (Vector.sub ((Vector.smul ⟨0, 1, 0⟩ 2).smul (Vector.dot ⟨0, 1, 0⟩ ⟨0, 0, -1⟩))
        ⟨0, 0, -1⟩).normalize := by
    have h1 : Vector.sub ((Vector.smul ⟨0, 1, 0⟩ 2).smul (Vector.dot ⟨0, 1, 0⟩ ⟨0, 0, -1⟩))
        ⟨0, 0, -1⟩ = ⟨0, 0, 1⟩ := by
      norm_num [Vector.sub, Vector.smul, Vector.dot, Vector.mk.injEq]
    rw [h1, nrm_posZ]
  have hrorig : (⟨0, 0.001, 6⟩ : Vector) =
      Vector.add ⟨0, 0, 6⟩ (Vector.smul ⟨0, 1, 0⟩ EPS) := by
    norm_num [Vector.add, Vector.smul, EPS, Vector.mk.injEq]
  have hrec : trace_ray [sphRed] [ambLight] n ⟨0, 0.001, 6⟩ ⟨0, 0, 1⟩ EPS ⊤ = some (0, 0, 0) :=
    trace_ray_background closest_R2
  rw [trace_ray_hit_rec closest_R1 hpnt hnrm hvw lighting_ambient_only
      (by norm_num [sphRed]) hrdir hrorig, hrec]
  norm_num [sphRed, clampChan, truncInt, Option.map]

/-- At depth `0` the same scenario returns the pure local colour
`(255, 0, 0)`. -/
theorem c2_eval0 :
    trace_ray [sphRed] [ambLight] 0 ⟨0, 0, 0⟩ ⟨0, 0, 1⟩ EPS ⊤ = some (255, 0, 0) := by
  have hnrm : (⟨0, 1, 0⟩ : Vector) = (Vector.sub (Vector.add ⟨0, 0, 0⟩
      (Vector.smul ⟨0, 0, 1⟩ 6)) sphRed.center).normalize := by
    have h1 : Vector.sub (Vector.add ⟨0, 0, 0⟩ (Vector.smul ⟨0, 0, 1⟩ 6)) sphRed.center
        = ⟨0, 1, 0⟩ := by
      norm_num [Vector.add, Vector.smul, Vector.sub, sphRed, Vector.mk.injEq]
    rw [h1, nrm_posY]
  rw [trace_ray_hit_base closest_R1 (by rw [← hnrm]; exact lighting_ambient_only)
    (Or.inl rfl)]
  norm_num [localColor, sphRed, clampChan, truncInt]

/-! ### Degenerate ray direction (`a = D·D = 0`) -/

/-- With a zero direction the quadratic has `a = 0` and `b = 0`, so
`disc = 0` is not negative and the root computation divides by
`2 * a = 0`: CPython raises `ZeroDivisionError`. -/
theorem intersect_zero_dir (o : Vector) (s : Sphere) :
    intersect_ray_sphere o ⟨0, 0, 0⟩ s = none := by
  unfold intersect_ray_sphere
  simp [Vector.dot]

/-- The exception of the first sphere propagates out of the scan loop:
with a zero direction and at least one sphere, `closest_intersection`
raises instead of returning `(None, inf)`. -/
theorem closest_zero_dir (o : Vector) (mt : ℝ) (Mt : WithTop ℝ) (s : Sphere)
    (rest : List Sphere) :
    closest_intersection o ⟨0, 0, 0⟩ mt Mt (s :: rest) = none := by
  unfold closest_intersection
  exact closestLoop_cons_err (intersect_zero_dir o s)

/-- Only an empty sphere list avoids the division: the loop body never
runs and the initial `(None, inf)` is returned. -/
theorem closest_zero_dir_nil (o : Vector) (mt : ℝ) (Mt : WithTop ℝ) :
    closest_intersection o ⟨0, 0, 0⟩ mt Mt [] = some none := rfl

/-! ### Specification of the nearest-hit scan -/

/-- Predicate: `t` is a root of the ray–sphere quadratic for `s` that lies
strictly inside the open interval `(min_t, max_t)`. -/
def validHit (o d : Vector) (mt : ℝ) (Mt : WithTop ℝ) (s : Sphere) (t : ℝ) : Prop :=
  (∃ t1 t2, intersect_ray_sphere o d s = some (some (t1, t2)) ∧ (t = t1 ∨ t = t2)) ∧
  mt < t ∧ (t : WithTop ℝ) < Mt

/-- With `a = D·D ≠ 0` the intersection math never raises. -/
theorem intersect_ne_err {o d : Vector} {s : Sphere} (ha : d.dot d ≠ 0) :
    intersect_ray_sphere o d s ≠ none := by
  simp only [intersect_ray_sphere]
  split_ifs with h1 h2
  · simp
  · exact absurd (by linarith [mul_eq_zero.mp h2] : d.dot d = 0) ha
  · simp

theorem updateBest_le {mt : ℝ} {Mt : WithTop ℝ} {s : Sphere} {t : ℝ}
    {best : Option (Sphere × ℝ)} :
    bestT (updateBest mt Mt s t best) ≤ bestT best := by
  unfold updateBest
  split_ifs with h
  · exact le_of_lt h.2.2
  · exact le_rfl

theorem updateBest_le_t {mt : ℝ} {Mt : WithTop ℝ} {s : Sphere} {t : ℝ}
    {best : Option (Sphere × ℝ)} (h1 : mt < t) (h2 : (t : WithTop ℝ) < Mt) :
    bestT (updateBest mt Mt s t best) ≤ (t : WithTop ℝ) := by
  unfold updateBest
  split_ifs with h
  · exact le_rfl
  · push_neg at h
    exact h h1 h2

theorem updateBest_cases {mt : ℝ} {Mt : WithTop ℝ} {s : Sphere} {t : ℝ}
    {best : Option (Sphere × ℝ)} :
    updateBest mt Mt s t best = best ∨
      (updateBest mt Mt s t best = some (s, t) ∧ mt < t ∧ (t : WithTop ℝ) < Mt) := by
  unfold updateBest
  split_ifs with h
  · exact Or.inr ⟨rfl, h.1, h.2.1⟩
  · exact Or.inl rfl

/-- Invariant of the `for s in spheres` scan: the loop succeeds, only
moves the running best to a valid hit of a scanned sphere, never
increases `closest_t`, and ends at or below every valid root of every
scanned sphere. -/
theorem closestLoop_spec {o d : Vector} {mt : ℝ} {Mt : WithTop ℝ} (ha : d.dot d ≠ 0) :
    ∀ (l : List Sphere) (best : Option (Sphere × ℝ)),
      ∃ res, closestLoop o d mt Mt l best = some res ∧
        (res = best ∨ ∃ s t, res = some (s, t) ∧ s ∈ l ∧ validHit o d mt Mt s t) ∧
        bestT res ≤ bestT best ∧
        (∀ s ∈ l, ∀ t, validHit o d mt Mt s t → bestT res ≤ (t : WithTop ℝ))
  | [], best => ⟨best, closestLoop_nil, Or.inl rfl, le_rfl, by simp⟩
  | s :: rest, best => by
    rcases h : intersect_ray_sphere o d s with _ | _ | ⟨t1, t2⟩
    · exact absurd h (intersect_ne_err ha)
    · obtain ⟨res, hres, hmove, hle, hmin⟩ := closestLoop_spec ha rest best
      refine ⟨res, (closestLoop_cons_miss h).trans hres, ?_, hle, ?_⟩
      · rcases hmove with h0 | ⟨s', t', h1, h2, h3⟩
        · exact Or.inl h0
        · exact Or.inr ⟨s', t', h1, List.mem_cons_of_mem _ h2, h3⟩
      · intro s' hs' t' hv
        rcases List.mem_cons.mp hs' with rfl | hs'
        · obtain ⟨⟨u1, u2, hu, _⟩, _, _⟩ := hv
          rw [h] at hu
          exact absurd hu (by simp)
        · exact hmin s' hs' t' hv
    · obtain ⟨res, hres, hmove, hle, hmin⟩ := closestLoop_spec ha rest
        (updateBest mt Mt s t2 (updateBest mt Mt s t1 best))
      refine ⟨res, (closestLoop_cons_roots h).trans hres, ?_, ?_, ?_⟩
      · rcases hmove with h0 | ⟨s', t', h1, h2, h3⟩
        · rcases @updateBest_cases mt Mt s t2 (updateBest mt Mt s t1 best)
            with h2 | ⟨h2, hc1, hc2⟩
          · rw [h2] at h0
            rcases @updateBest_cases mt Mt s t1 best with h3 | ⟨h3, hd1, hd2⟩
            · rw [h3] at h0
              exact Or.inl h0
            · rw [h3] at h0
              exact Or.inr ⟨s, t1, h0, List.mem_cons_self _ _,
                ⟨⟨t1, t2, h, Or.inl rfl⟩, hd1, hd2⟩⟩
          · rw [h2] at h0
            exact Or.inr ⟨s, t2, h0, List.mem_cons_self _ _,
              ⟨⟨t1, t2, h, Or.inr rfl⟩, hc1, hc2⟩⟩
        · exact Or.inr ⟨s', t', h1, List.mem_cons_of_mem _ h2, h3⟩
      · exact hle.trans (updateBest_le.trans updateBest_le)
      · intro s' hs' t' hv
        rcases List.mem_cons.mp hs' with rfl | hs'
        · obtain ⟨⟨u1, u2, hu, hor⟩, hv1, hv2⟩ := hv
          rw [h] at hu
          have h12 := Option.some.inj (Option.some.inj hu)
          have h1eq : t1 = u1 := congrArg Prod.fst h12
          have h2eq : t2 = u2 := congrArg Prod.snd h12
          rcases hor with rfl | rfl
          · subst h1eq
            exact hle.trans ((updateBest_le).trans (updateBest_le_t hv1 hv2))
          · subst h2eq
            exact hle.trans (updateBest_le_t hv1 hv2)
        · exact hmin s' hs' t' hv

/-- A sphere returned by the scan comes from the list (or from the
initial accumulator). -/
theorem closestLoop_mem {o d : Vector} {mt : ℝ} {Mt : WithTop ℝ} :
    ∀ (l : List Sphere) (best : Option (Sphere × ℝ)) (s : Sphere) (t : ℝ),
      closestLoop o d mt Mt l best = some (some (s, t)) →
      (∃ t0, best = some (s, t0)) ∨ s ∈ l
  | [], best, s, t, h => by
    rw [closestLoop_nil] at h
    exact Or.inl ⟨t, Option.some.inj h⟩
  | s' :: rest, best, s, t, h => by
    rcases hi : intersect_ray_sphere o d s' with _ | _ | ⟨t1, t2⟩
    · rw [closestLoop_cons_err hi] at h
      exact absurd h (by simp)
    · rw [closestLoop_cons_miss hi] at h
      rcases closestLoop_mem rest best s t h with h0 | h0
      · exact Or.inl h0
      · exact Or.inr (List.mem_cons_of_mem _ h0)
    · rw [closestLoop_cons_roots hi] at h
      rcases closestLoop_mem rest _ s t h with ⟨t0, h0⟩ | h0
      · rcases @updateBest_cases mt Mt s' t2 (updateBest mt Mt s' t1 best)
            with h2 | ⟨h2, -⟩
        · rw [h2] at h0
          rcases @updateBest_cases mt Mt s' t1 best with h3 | ⟨h3, -⟩
          · rw [h3] at h0
            exact Or.inl ⟨t0, h0⟩
          · rw [h3] at h0
            obtain ⟨rfl, -⟩ := Prod.mk.inj (Option.some.inj h0)
            exact Or.inr (List.mem_cons_self _ _)
        · rw [h2] at h0
          obtain ⟨rfl, -⟩ := Prod.mk.inj (Option.some.inj h0)
          exact Or.inr (List.mem_cons_self _ _)
      · exact Or.inr (List.mem_cons_of_mem _ h0)

/-- Coefficient `b = 2 (O-C)·D` of the ray–sphere quadratic. -/
def quadB (o d : Vector) (s : Sphere) : ℝ := 2 * (o.sub s.center).dot d

/-- Discriminant `b² - 4 a c` of the ray–sphere quadratic, with
`a = D·D` and `c = (O-C)·(O-C) - r²`. -/
def quadDisc (o d : Vector) (s : Sphere) : ℝ :=
  quadB o d s * quadB o d s -
    4 * (d.dot d) * ((o.sub s.center).dot (o.sub s.center) - s.radius * s.radius)

theorem intersect_eq_quad (o d : Vector) (s : Sphere) :
    intersect_ray_sphere o d s =
      if quadDisc o d s < 0 then some none
      else if 2 * d.dot d = 0 then none
      else some (some ((-quadB o d s + Real.sqrt (quadDisc o d s)) / (2 * d.dot d),
                       (-quadB o d s - Real.sqrt (quadDisc o d s)) / (2 * d.dot d))) := rfl

/-- Claim C3 (amended): for a zero ray direction the quadratic has
`a = D·D = 0` and `b = 0`, so `disc = 0` fails the `disc < 0` test and
the root computation divides by `2a = 0`.  CPython raises
`ZeroDivisionError` there (it does not produce IEEE infinities), the
exception propagates out of `closest_intersection` (modelled as the
`none` result), and callers do not receive `(None, +∞)`.  Only an
empty sphere list returns `(None, +∞)`, because the loop body never
runs. -/
theorem c3_zero_direction_raises (o : Vector) (mt : ℝ) (Mt : WithTop ℝ)
    (s : Sphere) (rest : List Sphere) :
    intersect_ray_sphere o ⟨0, 0, 0⟩ s = none ∧
    closest_intersection o ⟨0, 0, 0⟩ mt Mt (s :: rest) = none ∧
    closest_intersection o ⟨0, 0, 0⟩ mt Mt [] = some none :=
  ⟨intersect_zero_dir o s, closest_zero_dir o mt Mt s rest, closest_zero_dir_nil o mt Mt⟩

/-- Counterexample to claim C3 as stated: over a one-sphere scene the
zero-direction ray makes `closest_intersection` raise (`none`), not
return `(None, +∞)` (`some none`). -/
theorem c3_counterexample :
    closest_intersection ⟨0, 0, 0⟩ ⟨0, 0, 0⟩ EPS ⊤ [sphRed] = none ∧
    closest_intersection ⟨0, 0, 0⟩ ⟨0, 0, 0⟩ EPS ⊤ [sphRed] ≠ some none := by
  refine ⟨closest_zero_dir _ _ _ _ _, ?_⟩
  rw [closest_zero_dir]
  simp

/-- Claim C4 (amended with the nondegeneracy proviso `D·D ≠ 0`, forced
by the `ZeroDivisionError` of the zero direction): the scan succeeds
and returns either `(None, +∞)` (`res = none`) when no root of any
sphere lies strictly inside `(min_t, max_t)`, or a listed sphere
together with a root of its quadratic strictly inside the interval
that is least among all valid roots of all spheres — in particular
never a farther sphere. -/
theorem c4_nearest_hit (o d : Vector) (mt : ℝ) (Mt : WithTop ℝ) (spheres : List Sphere)
    (ha : d.dot d ≠ 0) :
    ∃ res, closest_intersection o d mt Mt spheres = some res ∧
      ((res = none ∧ ∀ s ∈ spheres, ∀ t, ¬ validHit o d mt Mt s t) ∨
       (∃ s t, res = some (s, t) ∧ s ∈ spheres ∧ validHit o d mt Mt s t ∧
         ∀ s' ∈ spheres, ∀ t', validHit o d mt Mt s' t' → t ≤ t')) := by
  obtain ⟨res, hres, hmove, -, hmin⟩ := closestLoop_spec ha spheres none
  refine ⟨res, hres, ?_⟩
  rcases hmove with rfl | ⟨s, t, rfl, hmem, hv⟩
  · refine Or.inl ⟨rfl, fun s hs t hv => ?_⟩
    have h := hmin s hs t hv
    simp only [bestT] at h
    exact absurd h (by simp)
  · refine Or.inr ⟨s, t, rfl, hmem, hv, fun s' hs' t' hv' => ?_⟩
    have h := hmin s' hs' t' hv'
    simp only [bestT] at h
    exact WithTop.coe_le_coe.mp h

/-- Counterexample to claim C4 as stated for every direction: the zero
direction admits no valid root at all, yet `closest_intersection`
raises instead of returning `(None, +∞)`. -/
theorem c4_counterexample :
    closest_intersection ⟨0, 0, 0⟩ ⟨0, 0, 0⟩ EPS ⊤ [sphA] = none ∧
    (∀ t : ℝ, ¬ validHit ⟨0, 0, 0⟩ ⟨0, 0, 0⟩ EPS ⊤ sphA t) ∧
    closest_intersection ⟨0, 0, 0⟩ ⟨0, 0, 0⟩ EPS ⊤ [sphA] ≠ some none := by
  refine ⟨closest_zero_dir _ _ _ _ _, ?_, by rw [closest_zero_dir]; simp⟩
  intro t hv
  obtain ⟨⟨t1, t2, hu, -⟩, -⟩ := hv
  rw [intersect_zero_dir] at hu
  exact absurd hu (by simp)

theorem c4_nearest_hit_witness :
    ∃ res, closest_intersection ⟨0, 0, 0⟩ ⟨0, 0, 1⟩ EPS ⊤ [sphA] = some res ∧
      ((res = none ∧ ∀ s ∈ [sphA], ∀ t, ¬ validHit ⟨0, 0, 0⟩ ⟨0, 0, 1⟩ EPS ⊤ s t) ∨
       (∃ s t, res = some (s, t) ∧ s ∈ [sphA] ∧ validHit ⟨0, 0, 0⟩ ⟨0, 0, 1⟩ EPS ⊤ s t ∧
         ∀ s' ∈ [sphA], ∀ t', validHit ⟨0, 0, 0⟩ ⟨0, 0, 1⟩ EPS ⊤ s' t' → t ≤ t')) :=
  c4_nearest_hit ⟨0, 0, 0⟩ ⟨0, 0, 1⟩ EPS ⊤ [sphA] (by norm_num [Vector.dot])

/-- Claim C5 (amended with the proviso `D·D ≠ 0` on the root-returning
clause, forced by the `ZeroDivisionError` of the zero direction): the
sentinel `(+∞, +∞)` (`some none`) is returned exactly when the
discriminant is negative, and whenever the discriminant is
non-negative and `a = D·D ≠ 0` the function returns exactly the two
roots `(-b ± √disc) / (2a)`, which the caller must filter. -/
theorem c5_intersect_spec (o d : Vector) (s : Sphere) :
    (intersect_ray_sphere o d s = some none ↔ quadDisc o d s < 0) ∧
    (¬ quadDisc o d s < 0 → d.dot d ≠ 0 →
      intersect_ray_sphere o d s = some (some
        ((-quadB o d s + Real.sqrt (quadDisc o d s)) / (2 * d.dot d),
         (-quadB o d s - Real.sqrt (quadDisc o d s)) / (2 * d.dot d)))) := by
  rw [intersect_eq_quad]
  constructor
  · split_ifs with h1 h2
    · simp [h1]
    · simp [h1]
    · simp [h1]
  · intro h1 h2
    rw [if_neg h1, if_neg (fun hc => h2 (by linarith))]

/-- Counterexample to claim C5 as stated: the zero direction has
`disc = 0` (not negative), yet `intersect_ray_sphere` raises (`none`)
instead of returning the two quotient roots. -/
theorem c5_counterexample :
    ¬ quadDisc ⟨0, 0, 0⟩ ⟨0, 0, 0⟩ sphRed < 0 ∧
    intersect_ray_sphere ⟨0, 0, 0⟩ ⟨0, 0, 0⟩ sphRed = none ∧
    intersect_ray_sphere ⟨0, 0, 0⟩ ⟨0, 0, 0⟩ sphRed ≠
      some (some
        ((-quadB ⟨0, 0, 0⟩ ⟨0, 0, 0⟩ sphRed +
            Real.sqrt (quadDisc ⟨0, 0, 0⟩ ⟨0, 0, 0⟩ sphRed)) /
          (2 * Vector.dot ⟨0, 0, 0⟩ ⟨0, 0, 0⟩),
         (-quadB ⟨0, 0, 0⟩ ⟨0, 0, 0⟩ sphRed -
            Real.sqrt (quadDisc ⟨0, 0, 0⟩ ⟨0, 0, 0⟩ sphRed)) /
          (2 * Vector.dot ⟨0, 0, 0⟩ ⟨0, 0, 0⟩))) := by
  refine ⟨by norm_num [quadDisc, quadB, Vector.sub, Vector.dot, sphRed],
    intersect_zero_dir _ _, ?_⟩
  rw [intersect_zero_dir]
  simp

theorem c5_intersect_spec_witness :
    intersect_ray_sphere ⟨0, 0, 0⟩ ⟨0, 1, 0⟩ sphA = some none ∧
    closest_intersection ⟨0, 0, 0⟩ ⟨0, 1, 0⟩ EPS ⊤ [sphA] = some none ∧
    intersect_ray_sphere ⟨0, 0, 0⟩ ⟨0, 0, 1⟩ sphA = some (some (4, 2)) := by
  have h1 : intersect_ray_sphere ⟨0, 0, 0⟩ ⟨0, 1, 0⟩ sphA = some none :=
    (c5_intersect_spec ⟨0, 0, 0⟩ ⟨0, 1, 0⟩ sphA).1.mpr
      (by norm_num [quadDisc, quadB, Vector.sub, Vector.dot, sphA])
  refine ⟨h1, ?_, ?_⟩
  · unfold closest_intersection
    rw [closestLoop_cons_miss h1, closestLoop_nil]
  · have hd : quadDisc ⟨0, 0, 0⟩ ⟨0, 0, 1⟩ sphA = 4 := by
      norm_num [quadDisc, quadB, Vector.sub, Vector.dot, sphA]
    have hb : quadB ⟨0, 0, 0⟩ ⟨0, 0, 1⟩ sphA = -6 := by
      norm_num [quadB, Vector.sub, Vector.dot, sphA]
    have h2 := (c5_intersect_spec ⟨0, 0, 0⟩ ⟨0, 0, 1⟩ sphA).2
      (by rw [hd]; norm_num) (by norm_num [Vector.dot])
    rw [h2, hd, hb, show Real.sqrt 4 = 2 from sqrt_eval (by norm_num) (by norm_num)]
    norm_num [Vector.dot]

/-! ### Inversion of `trace_ray` -/

/-- A sphere returned by `closest_intersection` is in the scene list. -/
theorem closest_mem {o d : Vector} {mt : ℝ} {Mt : WithTop ℝ} {spheres : List Sphere}
    {s : Sphere} {t : ℝ}
    (hc : closest_intersection o d mt Mt spheres = some (some (s, t))) : s ∈ spheres := by
  rcases closestLoop_mem spheres none s t hc with ⟨t0, h0⟩ | h0
  · exact absurd h0 (by simp)
  · exact h0

/-- Hit point `P = O + D t`. -/
noncomputable def hitPoint (o d : Vector) (t : ℝ) : Vector := o.add (d.smul t)

/-- Surface normal `normalize(P - C)` at the hit point. -/
noncomputable def hitNormal (o d : Vector) (t : ℝ) (s : Sphere) : Vector :=
  ((hitPoint o d t).sub s.center).normalize

/-- View vector `V = (-1) * D`. -/
def viewVec (d : Vector) : Vector := d.smul (-1)

/-- Reflected ray direction `normalize(2 N (N·V) - V)`. -/
noncomputable def reflDir (o d : Vector) (t : ℝ) (s : Sphere) : Vector :=
  ((((hitNormal o d t s).smul 2).smul ((hitNormal o d t s).dot (viewVec d))).sub
    (viewVec d)).normalize

/-- Reflected ray origin `P + N * EPS`. -/
noncomputable def reflOrigin (o d : Vector) (t : ℝ) (s : Sphere) : Vector :=
  (hitPoint o d t).add ((hitNormal o d t s).smul EPS)

theorem trace_ray_lighting_err {spheres : List Sphere} {lights : List Light} {depth : ℕ}
    {o d : Vector} {mt : ℝ} {Mt : WithTop ℝ} {s : Sphere} {t : ℝ}
    (hc : closest_intersection o d mt Mt spheres = some (some (s, t)))
    (hl : compute_lighting (o.add (d.smul t)) (((o.add (d.smul t)).sub s.center).normalize)
        (d.smul (-1)) s.specular spheres lights = none) :
    trace_ray spheres lights depth o d mt Mt = none := by
  rw [trace_ray, hc]
  dsimp only
  rw [hl]

/-- Inversion principle: a colour produced by `trace_ray` is the black
background, the clamped local colour of a hit, or the clamped blend of
the local colour of a hit with a colour produced at one less depth
along the reflected ray. -/
theorem trace_ray_cases {spheres : List Sphere} {lights : List Light} {depth : ℕ}
    {o d : Vector} {mt : ℝ} {Mt : WithTop ℝ} {c : Color}
    (h : trace_ray spheres lights depth o d mt Mt = some c) :
    c = (0, 0, 0) ∨
    ∃ s t li, closest_intersection o d mt Mt spheres = some (some (s, t)) ∧
      compute_lighting (hitPoint o d t) (hitNormal o d t s) (viewVec d) s.specular
        spheres lights = some li ∧ s ∈ spheres ∧
      (c = localColor s li ∨
        ∃ d0 rc, depth = d0 + 1 ∧ 0 < s.reflective ∧
          trace_ray spheres lights d0 (reflOrigin o d t s) (reflDir o d t s) EPS ⊤
            = some rc ∧
          c = (clampChan ((s.color.1 : ℝ) * max 0 (min 1 li) * (1 - s.reflective)
                 + (rc.1 : ℝ) * s.reflective),
               clampChan ((s.color.2.1 : ℝ) * max 0 (min 1 li) * (1 - s.reflective)
                 + (rc.2.1 : ℝ) * s.reflective),
               clampChan ((s.color.2.2 : ℝ) * max 0 (min 1 li) * (1 - s.reflective)
                 + (rc.2.2 : ℝ) * s.reflective))) := by
  rcases hc : closest_intersection o d mt Mt spheres with _ | ⟨_ | ⟨s, t⟩⟩
  · rw [trace_ray_err hc] at h
    exact absurd h (by simp)
  · rw [trace_ray_background hc] at h
    exact Or.inl (Option.some.inj h).symm
  · rcases hl : compute_lighting (hitPoint o d t) (hitNormal o d t s) (viewVec d)
        s.specular spheres lights with _ | li
    · rw [trace_ray_lighting_err hc hl] at h
      exact absurd h (by simp)
    · refine Or.inr ⟨s, t, li, rfl, hl, closest_mem hc, ?_⟩
      cases depth with
      | zero =>
        rw [trace_ray_hit_base hc hl (Or.inl rfl)] at h
        exact Or.inl (Option.some.inj h).symm
      | succ d0 =>
        by_cases hr : s.reflective ≤ 0
        · rw [trace_ray_hit_base hc hl (Or.inr hr)] at h
          exact Or.inl (Option.some.inj h).symm
        · have hrpos := lt_of_not_le hr
          rw [trace_ray_hit_rec hc rfl rfl rfl hl hrpos rfl rfl] at h
          obtain ⟨rc, hrec, hfc⟩ := Option.map_eq_some'.mp h
          exact Or.inr ⟨d0, rc, rfl, hrpos, hrec, hfc.symm⟩

/-! ### Channel bounds -/

theorem clampChan_le (x : ℝ) : clampChan x ≤ 255 := min_le_left _ _

theorem clampChan_nonneg {x : ℝ} (hx : 0 ≤ x) : 0 ≤ clampChan x := by
  rw [clampChan, truncInt, if_pos hx]
  exact le_min (by norm_num) (Int.floor_nonneg.mpr hx)

/-- Every colour `trace_ray` returns is clamped from above: each
channel is at most `255` (`min(255, int(x))`). -/
theorem trace_ray_le255 {spheres : List Sphere} {lights : List Light} {depth : ℕ}
    {o d : Vector} {mt : ℝ} {Mt : WithTop ℝ} {c : Color}
    (h : trace_ray spheres lights depth o d mt Mt = some c) :
    c.1 ≤ 255 ∧ c.2.1 ≤ 255 ∧ c.2.2 ≤ 255 := by
  rcases trace_ray_cases h with rfl | ⟨s, t, li, -, -, -, rfl | ⟨d0, rc, -, -, -, rfl⟩⟩
  · norm_num
  · exact ⟨clampChan_le _, clampChan_le _, clampChan_le _⟩
  · exact ⟨clampChan_le _, clampChan_le _, clampChan_le _⟩

/-- Scene hypothesis under which the missing lower clamp cannot be
exposed: reflectivities in `[0, 1]` and nonnegative colour channels. -/
def goodScene (spheres : List Sphere) : Prop :=
  ∀ s ∈ spheres, (0 ≤ s.reflective ∧ s.reflective ≤ 1) ∧
    0 ≤ s.color.1 ∧ 0 ≤ s.color.2.1 ∧ 0 ≤ s.color.2.2

theorem localColor_nonneg {s : Sphere} (li : ℝ)
    (h1 : 0 ≤ s.color.1) (h2 : 0 ≤ s.color.2.1) (h3 : 0 ≤ s.color.2.2) :
    0 ≤ (localColor s li).1 ∧ 0 ≤ (localColor s li).2.1 ∧ 0 ≤ (localColor s li).2.2 := by
  have hl : (0 : ℝ) ≤ max 0 (min 1 li) := le_max_left _ _
  exact ⟨clampChan_nonneg (mul_nonneg (by exact_mod_cast h1) hl),
         clampChan_nonneg (mul_nonneg (by exact_mod_cast h2) hl),
         clampChan_nonneg (mul_nonneg (by exact_mod_cast h3) hl)⟩

/-- On a `goodScene`, every channel `trace_ray` returns is nonnegative
(the blend `local * (1-r) + reflected * r` stays nonnegative when
`r ∈ [0,1]`). -/
theorem trace_ray_nonneg {spheres : List Sphere} {lights : List Light}
    (hgood : goodScene spheres) :
    ∀ (depth : ℕ) {o d : Vector} {mt : ℝ} {Mt : WithTop ℝ} {c : Color},
      trace_ray spheres lights depth o d mt Mt = some c →
      0 ≤ c.1 ∧ 0 ≤ c.2.1 ∧ 0 ≤ c.2.2 := by
  intro depth
  induction depth with
  | zero =>
    intro o d mt Mt c h
    rcases trace_ray_cases h with rfl | ⟨s, t, li, -, -, hmem, rfl | ⟨d0, rc, hd0, -, -, -⟩⟩
    · norm_num
    · obtain ⟨-, h1, h2, h3⟩ := hgood s hmem
      exact localColor_nonneg li h1 h2 h3
    · exact absurd hd0 (by simp)
  | succ d0 ih =>
    intro o d mt Mt c h
    rcases trace_ray_cases h with rfl | ⟨s, t, li, -, -, hmem, rfl | ⟨d1, rc, hd1, hr, hrec, rfl⟩⟩
    · norm_num
    · obtain ⟨-, h1, h2, h3⟩ := hgood s hmem
      exact localColor_nonneg li h1 h2 h3
    · obtain ⟨⟨hr0, hr1⟩, h1, h2, h3⟩ := hgood s hmem
      obtain rfl : d1 = d0 := by omega
      obtain ⟨hrc1, hrc2, hrc3⟩ := ih hrec
      have hl : (0 : ℝ) ≤ max 0 (min 1 li) := le_max_left _ _
      have h1r : (0 : ℝ) ≤ 1 - s.reflective := by linarith
      refine ⟨clampChan_nonneg ?_, clampChan_nonneg ?_, clampChan_nonneg ?_⟩
      · have := mul_nonneg (mul_nonneg (show (0:ℝ) ≤ (s.color.1 : ℝ) by exact_mod_cast h1) hl) h1r
        have := mul_nonneg (show (0:ℝ) ≤ (rc.1 : ℝ) by exact_mod_cast hrc1) hr0
        linarith
      · have := mul_nonneg (mul_nonneg (show (0:ℝ) ≤ (s.color.2.1 : ℝ) by exact_mod_cast h2) hl) h1r
        have := mul_nonneg (show (0:ℝ) ≤ (rc.2.1 : ℝ) by exact_mod_cast hrc2) hr0
        linarith
      · have := mul_nonneg (mul_nonneg (show (0:ℝ) ≤ (s.color.2.2 : ℝ) by exact_mod_cast h3) hl) h1r
        have := mul_nonneg (show (0:ℝ) ≤ (rc.2.2 : ℝ) by exact_mod_cast hrc3) hr0
        linarith

/-- Claim C1 (amended): every channel `trace_ray` returns is an
integer at most `255` (the `min(255, int(x))` conversion), but there
is no lower clamp: nonnegativity additionally requires every sphere's
`reflective` in `[0,1]` and nonnegative colour channels, and fails for
spheres with `reflective` outside `[0,1]` (see the counterexample,
where a channel is `-255`). -/
theorem c1_channel_bounds {spheres : List Sphere} {lights : List Light} {depth : ℕ}
    {o d : Vector} {mt : ℝ} {Mt : WithTop ℝ} {c : Color}
    (h : trace_ray spheres lights depth o d mt Mt = some c) :
    (c.1 ≤ 255 ∧ c.2.1 ≤ 255 ∧ c.2.2 ≤ 255) ∧
    (goodScene spheres → 0 ≤ c.1 ∧ 0 ≤ c.2.1 ∧ 0 ≤ c.2.2) :=
  ⟨trace_ray_le255 h, fun hgood => trace_ray_nonneg hgood depth h⟩

/-- Counterexample to claim C1 as stated: with a sphere of
`reflective = 2` (outside `[0,1]`, which the claim explicitly covers)
the returned red channel is `-255 < 0`. -/
theorem c1_counterexample :
    trace_ray [sphA] [ambLight] 1 ⟨0, 0, 0⟩ ⟨0, 0, 1⟩ EPS ⊤ = some (-255, 0, 0) ∧
    ¬ (0 : ℤ) ≤ -255 :=
  ⟨c1_eval, by norm_num⟩

theorem c1_channel_bounds_witness :
    ((-255 : ℤ) ≤ 255 ∧ (0 : ℤ) ≤ 255 ∧ (0 : ℤ) ≤ 255) ∧
    (goodScene [sphA] → (0 : ℤ) ≤ -255 ∧ (0 : ℤ) ≤ 0 ∧ (0 : ℤ) ≤ 0) :=
  c1_channel_bounds c1_eval

/-- Claim C2 (amended): the camera ray `(0,0,1)` from the origin hits
the red sphere (tangentially, at `t = 6`), ambient-only lighting
saturates to `1`, but with any positive recursion depth the
`reflective = 0.2` blend with the missed reflection ray (black
background) gives red channel `int(255 * 0.8) = 204`, not `255`; the
claimed `255` occurs only at depth `0`. -/
theorem c2_front_face_color (n : ℕ) :
    trace_ray [sphRed] [ambLight] (n + 1) ⟨0, 0, 0⟩ ⟨0, 0, 1⟩ EPS ⊤ = some (204, 0, 0) ∧
    trace_ray [sphRed] [ambLight] 0 ⟨0, 0, 0⟩ ⟨0, 0, 1⟩ EPS ⊤ = some (255, 0, 0) :=
  ⟨c2_eval n, c2_eval0⟩

/-- Counterexample to claim C2 as stated: at the renderer's depth `3`
the scenario returns red `204`, not `255`. -/
theorem c2_counterexample :
    trace_ray [sphRed] [ambLight] 3 ⟨0, 0, 0⟩ ⟨0, 0, 1⟩ EPS ⊤ = some (204, 0, 0) ∧
    (204 : ℤ) ≠ 255 :=
  ⟨c2_eval 2, by norm_num⟩

/-! ### Per-light shadowing -/

/-- The shadow ray of a non-ambient light hits some sphere: the
source condition `shadow_sphere is not None`, with the exact `l_vec`
and `t_max` the code uses (`light.position - point`, `t_max = 1.0` for
point lights; `light.position`, `t_max = inf` for directional
lights), cast from `point + normal * EPS` over `(EPS, t_max)`. -/
def shadowBlocked (point normal : Vector) (spheres : List Sphere) (light : Light) : Prop :=
  ∃ lp hit, light.position = some lp ∧
    ((light.l_type = LightType.point ∧
        closest_intersection (point.add (normal.smul EPS)) (lp.sub point) EPS
          ((1 : ℝ) : WithTop ℝ) spheres = some (some hit)) ∨
     (light.l_type = LightType.directional ∧
        closest_intersection (point.add (normal.smul EPS)) lp EPS ⊤ spheres
          = some (some hit)))

/-- A blocked light leaves the running intensity unchanged (the
source `continue`s before the diffuse and specular terms). -/
theorem lightStep_blocked {p n v : Vector} {spec : ℤ} {spheres : List Sphere}
    {light : Light} {acc : ℝ} (hb : shadowBlocked p n spheres light) :
    lightStep p n v spec spheres light acc = some acc := by
  obtain ⟨lp, hit, hpos, hcase⟩ := hb
  rcases hcase with ⟨hty, hshadow⟩ | ⟨hty, hshadow⟩
  · unfold lightStep
    rw [hty, hpos]
    dsimp only
    simp only [eq_self_iff_true, if_true]
    rw [hshadow]
  · unfold lightStep
    rw [hty, hpos]
    dsimp only
    rw [if_neg (by decide), if_neg (by decide), hshadow]

/-- Removing a shadow-blocked light from anywhere in the light list
does not change the result of the lighting loop: shadowing is
per-light. -/
theorem lightingLoop_removal {p n v : Vector} {spec : ℤ} {spheres : List Sphere}
    {light : Light} (hb : shadowBlocked p n spheres light) :
    ∀ (L R : List Light) (acc : ℝ),
      lightingLoop p n v spec spheres (L ++ light :: R) acc =
        lightingLoop p n v spec spheres (L ++ R) acc
  | [], R, acc => by
    rw [List.nil_append, List.nil_append,
      lightingLoop_cons_some (lightStep_blocked hb)]
  | l0 :: L, R, acc => by
    rw [List.cons_append, List.cons_append]
    rcases h0 : lightStep p n v spec spheres l0 acc with _ | acc2
    · rw [lightingLoop_cons_none h0, lightingLoop_cons_none h0]
    · rw [lightingLoop_cons_some h0, lightingLoop_cons_some h0,
        lightingLoop_removal hb L R acc2]

/-- Claim C6 (confirmed): if the shadow ray of a non-ambient light —
cast from `point + normal * EPS` toward the code's light vector, with
`t_max = 1.0` for point lights and `t_max = +∞` for directional ones —
hits any sphere in `(EPS, t_max)`, that light contributes nothing to
`compute_lighting`: deleting it from the light list (whatever ambient
or other lights surround it) leaves the computed intensity unchanged. -/
theorem c6_shadow_per_light (point normal view : Vector) (spec : ℤ)
    (spheres : List Sphere) (light : Light) (L R : List Light)
    (hb : shadowBlocked point normal spheres light) :
    compute_lighting point normal view spec spheres (L ++ light :: R) =
      compute_lighting point normal view spec spheres (L ++ R) := by
  rw [compute_lighting, compute_lighting, lightingLoop_removal hb L R 0]

/-- Opaque blocker sphere sitting between the shaded point and the
point light of the witness scene. -/
noncomputable def sphBlock : Sphere := ⟨⟨0, 2, 0⟩, 1, (0, 255, 0), -1, 0⟩

/-- Point light of the witness scene, directly above the shaded
point, behind the blocker. -/
noncomputable def ptLight : Light := ⟨LightType.point, 0.6, some ⟨0, 4, 0⟩⟩

theorem intersect_Block :
    intersect_ray_sphere ⟨0, 0.001, 0⟩ ⟨0, 4, 0⟩ sphBlock
      = some (some (0.74975, 0.24975)) := by
  unfold intersect_ray_sphere sphBlock
  simp only [Vector.sub, Vector.dot]
  norm_num
  rw [show Real.sqrt 64 = 8 from sqrt_eval (by norm_num) (by norm_num)]
  norm_num

theorem closest_Block :
    closest_intersection ⟨0, 0.001, 0⟩ ⟨0, 4, 0⟩ EPS ((1 : ℝ) : WithTop ℝ) [sphBlock]
      = some (some (sphBlock, 0.24975)) := by
  unfold closest_intersection
  have hu1 : updateBest EPS ((1 : ℝ) : WithTop ℝ) sphBlock 0.74975 none
      = some (sphBlock, 0.74975) :=
    updateBest_pos (by norm_num [EPS]) (WithTop.coe_lt_coe.mpr (by norm_num))
      (WithTop.coe_lt_top _)
  have hu2 : updateBest EPS ((1 : ℝ) : WithTop ℝ) sphBlock 0.24975
      (some (sphBlock, 0.74975)) = some (sphBlock, 0.24975) :=
    updateBest_pos (by norm_num [EPS]) (WithTop.coe_lt_coe.mpr (by norm_num))
      (by simp only [bestT]; exact WithTop.coe_lt_coe.mpr (by norm_num))
  rw [closestLoop_cons_roots intersect_Block, hu1, hu2, closestLoop_nil]

theorem c6_shadow_per_light_witness :
    compute_lighting ⟨0, 0, 0⟩ ⟨0, 1, 0⟩ ⟨0, 1, 0⟩ 500 [sphBlock] [ptLight] = some 0 := by
  have hb : shadowBlocked ⟨0, 0, 0⟩ ⟨0, 1, 0⟩ [sphBlock] ptLight := by
    refine ⟨⟨0, 4, 0⟩, (sphBlock, 0.24975), rfl, Or.inl ⟨rfl, ?_⟩⟩
    have ho : Vector.add ⟨0, 0, 0⟩ (Vector.smul ⟨0, 1, 0⟩ EPS) = (⟨0, 0.001, 0⟩ : Vector) := by
      norm_num [Vector.add, Vector.smul, EPS, Vector.mk.injEq]
    have hd : Vector.sub ⟨0, 4, 0⟩ ⟨0, 0, 0⟩ = (⟨0, 4, 0⟩ : Vector) := by
      norm_num [Vector.sub, Vector.mk.injEq]
    rw [ho, hd]
    exact closest_Block
  have h := c6_shadow_per_light ⟨0, 0, 0⟩ ⟨0, 1, 0⟩ ⟨0, 1, 0⟩ 500 [sphBlock] ptLight [] [] hb
  rw [List.nil_append, List.nil_append] at h
  rw [h]
  rfl

/-! ### Reflective blend at the extremes, and recursion structure -/

theorem clampChan_int_le {n : ℤ} (h : n ≤ 255) : clampChan (n : ℝ) = n := by
  rw [clampChan, truncInt_intCast]
  exact min_eq_right h

/-- Claim C7 (confirmed): at a hit with successful lighting, a sphere
with `reflective = 0` makes `trace_ray` return exactly the clamped
pure local-lighting colour at every depth (the `r <= 0` base case),
and a sphere with `reflective = 1` at positive depth makes it return
exactly the recursively reflected colour with no local contribution
(the blend `local*(1-1) + reflected*1` truncates to the reflected
integer unchanged). -/
theorem c7_reflective_blend {spheres : List Sphere} {lights : List Light}
    {o d : Vector} {mt : ℝ} {Mt : WithTop ℝ} {s : Sphere} {t li : ℝ}
    (hc : closest_intersection o d mt Mt spheres = some (some (s, t)))
    (hl : compute_lighting (hitPoint o d t) (hitNormal o d t s) (viewVec d) s.specular
        spheres lights = some li) :
    (s.reflective = 0 → ∀ depth, trace_ray spheres lights depth o d mt Mt
        = some (localColor s li)) ∧
    (s.reflective = 1 → ∀ n, trace_ray spheres lights (n + 1) o d mt Mt
        = trace_ray spheres lights n (reflOrigin o d t s) (reflDir o d t s) EPS ⊤) := by
  constructor
  · intro h0 depth
    exact trace_ray_hit_base hc hl (Or.inr (le_of_eq h0))
  · intro h1 n
    rw [trace_ray_hit_rec hc rfl rfl rfl hl (by rw [h1]; norm_num) rfl rfl]
    show (trace_ray spheres lights n (reflOrigin o d t s) (reflDir o d t s) EPS ⊤).map
        (fun rc =>
          (clampChan ((s.color.1 : ℝ) * max 0 (min 1 li) * (1 - s.reflective)
             + (rc.1 : ℝ) * s.reflective),
           clampChan ((s.color.2.1 : ℝ) * max 0 (min 1 li) * (1 - s.reflective)
             + (rc.2.1 : ℝ) * s.reflective),
           clampChan ((s.color.2.2 : ℝ) * max 0 (min 1 li) * (1 - s.reflective)
             + (rc.2.2 : ℝ) * s.reflective))) =
      trace_ray spheres lights n (reflOrigin o d t s) (reflDir o d t s) EPS ⊤
    rcases hrec : trace_ray spheres lights n (reflOrigin o d t s) (reflDir o d t s) EPS ⊤
      with _ | rc
    · rfl
    · obtain ⟨hb1, hb2, hb3⟩ := trace_ray_le255 hrec
      simp only [Option.map]
      rw [h1]
      have e1 : (s.color.1 : ℝ) * max 0 (min 1 li) * (1 - 1) + (rc.1 : ℝ) * 1
          = (rc.1 : ℝ) := by ring
      have e2 : (s.color.2.1 : ℝ) * max 0 (min 1 li) * (1 - 1) + (rc.2.1 : ℝ) * 1
          = (rc.2.1 : ℝ) := by ring
      have e3 : (s.color.2.2 : ℝ) * max 0 (min 1 li) * (1 - 1) + (rc.2.2 : ℝ) * 1
          = (rc.2.2 : ℝ) := by ring
      rw [e1, e2, e3, clampChan_int_le hb1, clampChan_int_le hb2, clampChan_int_le hb3]

/-- Perfect-mirror sphere for the C7 witness. -/
noncomputable def sphMirror : Sphere := ⟨⟨0, 0, 3⟩, 1, (255, 0, 0), -1, 1⟩

theorem intersect_M1 :
    intersect_ray_sphere ⟨0, 0, 0⟩ ⟨0, 0, 1⟩ sphMirror = some (some (4, 2)) := by
  unfold intersect_ray_sphere sphMirror
  simp only [Vector.sub, Vector.dot]
  norm_num
  rw [show Real.sqrt 4 = 2 from sqrt_eval (by norm_num) (by norm_num)]
  norm_num

theorem closest_M1 :
    closest_intersection ⟨0, 0, 0⟩ ⟨0, 0, 1⟩ EPS ⊤ [sphMirror]
      = some (some (sphMirror, 2)) := by
  unfold closest_intersection
  have hu1 : updateBest EPS ⊤ sphMirror 4 none = some (sphMirror, 4) :=
    updateBest_pos (by norm_num [EPS]) (WithTop.coe_lt_top _) (WithTop.coe_lt_top _)
  have hu2 : updateBest EPS ⊤ sphMirror 2 (some (sphMirror, 4)) = some (sphMirror, 2) :=
    updateBest_pos (by norm_num [EPS]) (WithTop.coe_lt_top _)
      (by simp only [bestT]; exact WithTop.coe_lt_coe.mpr (by norm_num))
  rw [closestLoop_cons_roots intersect_M1, hu1, hu2, closestLoop_nil]

theorem c7_reflective_blend_witness :
    trace_ray [sphMirror] [ambLight] 1 ⟨0, 0, 0⟩ ⟨0, 0, 1⟩ EPS ⊤ =
      trace_ray [sphMirror] [ambLight] 0 (reflOrigin ⟨0, 0, 0⟩ ⟨0, 0, 1⟩ 2 sphMirror)
        (reflDir ⟨0, 0, 0⟩ ⟨0, 0, 1⟩ 2 sphMirror) EPS ⊤ :=
  (c7_reflective_blend closest_M1 lighting_ambient_only).2 rfl 0

/-- Claim C8 (confirmed): at a hit with successful lighting, whenever
`depth = 0` (the `ℕ` image of the source guard `depth <= 0`) or the
sphere's `reflective <= 0`, `trace_ray` returns the clamped local
colour without recursing — in particular depth `0` never recurses
regardless of reflectivity; and at `depth = d0 + 1` with positive
reflectivity the only recursive call is made at depth `d0 = depth - 1`
along the reflected ray, so the depth strictly decreases and the
(structurally recursive, hence total) function terminates. -/
theorem c8_termination {spheres : List Sphere} {lights : List Light}
    {o d : Vector} {mt : ℝ} {Mt : WithTop ℝ} {s : Sphere} {t li : ℝ}
    (hc : closest_intersection o d mt Mt spheres = some (some (s, t)))
    (hl : compute_lighting (hitPoint o d t) (hitNormal o d t s) (viewVec d) s.specular
        spheres lights = some li) :
    (∀ depth, (depth = 0 ∨ s.reflective ≤ 0) →
      trace_ray spheres lights depth o d mt Mt = some (localColor s li)) ∧
    (∀ d0, 0 < s.reflective →
      trace_ray spheres lights (d0 + 1) o d mt Mt =
        (trace_ray spheres lights d0 (reflOrigin o d t s) (reflDir o d t s) EPS ⊤).map
          (fun rc =>
            (clampChan ((s.color.1 : ℝ) * max 0 (min 1 li) * (1 - s.reflective)
               + (rc.1 : ℝ) * s.reflective),
             clampChan ((s.color.2.1 : ℝ) * max 0 (min 1 li) * (1 - s.reflective)
               + (rc.2.1 : ℝ) * s.reflective),
             clampChan ((s.color.2.2 : ℝ) * max 0 (min 1 li) * (1 - s.reflective)
               + (rc.2.2 : ℝ) * s.reflective)))) :=
  ⟨fun _ hb => trace_ray_hit_base hc hl hb,
   fun _ hr => trace_ray_hit_rec hc rfl rfl rfl hl hr rfl rfl⟩

theorem c8_termination_witness :
    trace_ray [sphRed] [ambLight] 0 ⟨0, 0, 0⟩ ⟨0, 0, 1⟩ EPS ⊤
      = some (localColor sphRed 1) :=
  (c8_termination closest_R1 lighting_ambient_only).1 0 (Or.inl rfl)

/-! ### Zero-vector normalization and the specular guard -/

/-- Claim C9 (confirmed): `normalize` never divides by zero and never
raises.  A vector has length `0` exactly when it is the zero vector;
the explicit `l == 0` guard returns `(0,0,0)` (the zero vector
unchanged) there, and every other vector is divided by its nonzero
length. -/
theorem c9_normalize_zero (v : Vector) :
    (v.length = 0 ↔ v = ⟨0, 0, 0⟩) ∧
    (v = ⟨0, 0, 0⟩ → v.normalize = ⟨0, 0, 0⟩) ∧
    (v ≠ ⟨0, 0, 0⟩ → v.length ≠ 0 ∧ v.normalize = v.div v.length) := by
  obtain ⟨x, y, z⟩ := v
  have hnn : (0 : ℝ) ≤ Vector.dot ⟨x, y, z⟩ ⟨x, y, z⟩ := by
    rw [Vector.dot]
    dsimp only
    nlinarith [mul_self_nonneg x, mul_self_nonneg y, mul_self_nonneg z]
  have hiff : Vector.length ⟨x, y, z⟩ = 0 ↔ (⟨x, y, z⟩ : Vector) = ⟨0, 0, 0⟩ := by
    rw [Vector.length]
    constructor
    · intro h
      have hd : Vector.dot ⟨x, y, z⟩ ⟨x, y, z⟩ = 0 :=
        le_antisymm (Real.sqrt_eq_zero'.mp h) hnn
      rw [Vector.dot] at hd
      dsimp only at hd
      have hx : x = 0 := by
        have h1 : x * x = 0 :=
          le_antisymm (by nlinarith [mul_self_nonneg y, mul_self_nonneg z])
            (mul_self_nonneg x)
        exact mul_self_eq_zero.mp h1
      have hy : y = 0 := by
        have h1 : y * y = 0 :=
          le_antisymm (by nlinarith [mul_self_nonneg x, mul_self_nonneg z])
            (mul_self_nonneg y)
        exact mul_self_eq_zero.mp h1
      have hz : z = 0 := by
        have h1 : z * z = 0 :=
          le_antisymm (by nlinarith [mul_self_nonneg x, mul_self_nonneg y])
            (mul_self_nonneg z)
        exact mul_self_eq_zero.mp h1
      rw [hx, hy, hz]
    · intro h
      obtain ⟨hx, hy, hz⟩ : x = 0 ∧ y = 0 ∧ z = 0 := by
        refine ⟨congrArg Vector.x h, congrArg Vector.y h, congrArg Vector.z h⟩
      rw [Vector.dot, hx, hy, hz]
      norm_num
  refine ⟨hiff, ?_, ?_⟩
  · intro h
    rw [Vector.normalize, if_pos (hiff.mpr h)]
  · intro h
    have hne : Vector.length ⟨x, y, z⟩ ≠ 0 := fun h0 => h (hiff.mp h0)
    exact ⟨hne, by rw [Vector.normalize, if_neg hne]⟩

theorem c9_normalize_zero_witness :
    Vector.normalize ⟨0, 0, 0⟩ = ⟨0, 0, 0⟩ ∧
    Vector.normalize ⟨0, 3, 4⟩ = Vector.div ⟨0, 3, 4⟩ (Vector.length ⟨0, 3, 4⟩) := by
  refine ⟨(c9_normalize_zero ⟨0, 0, 0⟩).2.1 rfl, ((c9_normalize_zero ⟨0, 3, 4⟩).2.2 ?_).2⟩
  intro h
  have h3 : (3 : ℝ) = 0 := congrArg Vector.y h
  norm_num at h3

/-- Directional light for the C10 witness (intensity `1`, direction
`(0, 2, 0)`). -/
noncomputable def dirLight : Light := ⟨LightType.directional, 1, some ⟨0, 2, 0⟩⟩

/-- Claim C10 (confirmed): in the lighting loop the specular term is
guarded only by `specular != -1`.  For an unshadowed directional light:
with `specular = -1` only the Lambert term is added, and with any
other value — negative ones such as `-2` included — the term
`intensity * (R·V) ** specular` is added whenever `R·V > 0`, the
negative exponent being evaluated as a real power (`zpow`). -/
theorem c10_specular_branch (point normal view : Vector) (specular : ℤ)
    (spheres : List Sphere) (light : Light) (lp : Vector) (acc : ℝ)
    (hty : light.l_type = LightType.directional)
    (hpos : light.position = some lp)
    (hnoshadow : closest_intersection (point.add (normal.smul EPS)) lp EPS ⊤ spheres
      = some none) :
    (specular = -1 →
      lightStep point normal view specular spheres light acc = some
        (if 0 < normal.dot lp.normalize
          then acc + light.intensity * normal.dot lp.normalize else acc)) ∧
    (specular ≠ -1 →
      0 < (((normal.smul 2).smul (normal.dot lp.normalize)).sub
          lp.normalize).normalize.dot view.normalize →
      lightStep point normal view specular spheres light acc = some
        ((if 0 < normal.dot lp.normalize
            then acc + light.intensity * normal.dot lp.normalize else acc) +
          light.intensity *
            ((((normal.smul 2).smul (normal.dot lp.normalize)).sub
              lp.normalize).normalize.dot view.normalize) ^ specular)) := by
  constructor
  · intro hs
    unfold lightStep
    rw [hty, hpos]
    dsimp only
    rw [if_neg (by decide), if_neg (by decide), hnoshadow]
    dsimp only
    rw [if_neg (by simp [hs])]
  · intro hs hrv
    unfold lightStep
    rw [hty, hpos]
    dsimp only
    rw [if_neg (by decide), if_neg (by decide), hnoshadow]
    dsimp only
    rw [if_pos hs, if_pos hrv]

theorem c10_specular_branch_witness :
    (-2 : ℤ) ≠ -1 ∧
    lightStep ⟨0, 0, 0⟩ ⟨0, 1, 0⟩ ⟨0, 3, 4⟩ (-2) [] dirLight 0
      = some (1 + ((3 : ℝ) / 5) ^ (-2 : ℤ)) := by
  refine ⟨by decide, ?_⟩
  have hn2 : (⟨0, 2, 0⟩ : Vector).normalize = ⟨0, 1, 0⟩ :=
    normalize_concrete two_pos (by norm_num [Vector.dot])
      (by norm_num [Vector.div, Vector.mk.injEq])
  have hn34 : (⟨0, 3, 4⟩ : Vector).normalize = ⟨0, 3 / 5, 4 / 5⟩ :=
    normalize_concrete (by norm_num : (0 : ℝ) < 5) (by norm_num [Vector.dot])
      (by norm_num [Vector.div, Vector.mk.injEq])
  have h := (c10_specular_branch ⟨0, 0, 0⟩ ⟨0, 1, 0⟩ ⟨0, 3, 4⟩ (-2) [] dirLight
    ⟨0, 2, 0⟩ 0 rfl rfl rfl).2 (by decide)
  rw [hn2, hn34] at h
  have hv : Vector.sub ((Vector.smul ⟨0, 1, 0⟩ 2).smul (Vector.dot ⟨0, 1, 0⟩ ⟨0, 1, 0⟩))
      ⟨0, 1, 0⟩ = (⟨0, 1, 0⟩ : Vector) := by
    norm_num [Vector.sub, Vector.smul, Vector.dot, Vector.mk.injEq]
  rw [hv, nrm_posY] at h
  have hd1 : Vector.dot ⟨0, 1, 0⟩ (⟨0, 1, 0⟩ : Vector) = 1 := by norm_num [Vector.dot]
  have hd2 : Vector.dot ⟨0, 1, 0⟩ (⟨0, 3 / 5, 4 / 5⟩ : Vector) = 3 / 5 := by
    norm_num [Vector.dot]
  rw [hd1, hd2] at h
  rw [h (by norm_num)]
  norm_num [dirLight]

end Raytracer
